import Mathlib

/-!
Shallow embedding of `aldryn_newsblog/managers.py`.

The module defines `ArticleQuerySet.published`, and `RelatedManager` with
`get_query_set`, `published`, `get_months`, `get_authors` and `get_tags`.
The relational store is modelled as explicit lists: a list of articles, the
`Person` table (`aldryn_people.models.Person`, identified by primary key) and
the `Tag` table (`taggit.models.Tag`, identified by primary key), each kept in
its underlying storage order.  Tagged items (`taggit.models.TaggedItem` rows)
are the pairs (article, tag id) induced by the `tags` list of each article,
and the authorship join rows behind `Person.objects.filter(article__...)` are
the pairs (article, person id) induced by the `authors` list of each article.
-/

namespace AldrynNewsblog

/-- A calendar date as carried by `Article.publishing_date`
(`datetime.date`: year, month, day). -/
structure Date where
  year : Nat
  month : Nat
  day : Nat
deriving DecidableEq, Repr

/-- Modelled from the spec: the `Article` model itself is outside the given
source fragment; per the data model it belongs to exactly one namespace
(via its app configuration), has a publication date, a published flag,
zero or more tags and zero or more authors via association relations. -/
structure Article where
  app_config_namespace : String
  publishing_date : Date
  is_published : Bool
  tags : List Nat
  authors : List Nat
deriving DecidableEq, Repr

/-- The relational store backing the manager: the article table, the
`Person` table and the `Tag` table, in storage order. -/
structure Store where
  articles : List Article
  persons : List Nat
  tags : List Nat
deriving DecidableEq, Repr

/-- One record of `get_months`:
a dictionary holding a date (year, month, arbitrary day) under the key date
and a count under the key num_articles. -/
structure MonthBucket where
  date : Date
  num_articles : Nat
deriving DecidableEq, Repr

/-- A `Person` row annotated with `num_articles` by `get_authors`. -/
structure AuthorCount where
  person : Nat
  num_articles : Nat
deriving DecidableEq, Repr

/-- A `Tag` object carrying the custom `num_articles` attribute set by
`get_tags`. -/
structure TagCount where
  tag : Nat
  num_articles : Nat
deriving DecidableEq, Repr

/-- Python tuple comparison `(y1, m1) >= (y2, m2)` (lexicographic);
`sorted(dates, reverse=True)` puts `a` before `b` exactly when `monthGe a b`. -/
def monthGe (a b : Nat × Nat) : Prop :=
  b.1 < a.1 ∨ (b.1 = a.1 ∧ b.2 ≤ a.2)

instance : DecidableRel monthGe := fun a b => by
  unfold monthGe; infer_instance

instance : IsTotal (Nat × Nat) monthGe :=
  ⟨fun a b => by unfold monthGe; omega⟩

instance : IsTrans (Nat × Nat) monthGe :=
  ⟨fun a b c => by unfold monthGe; omega⟩

/-- The comparison behind `sorted(tags, key=attrgetter("num_articles"),
reverse=True)`: `a` comes before `b` when its count is bigger or equal
(the Python sort is stable, so equal counts keep their original order). -/
def tagGe (a b : TagCount) : Prop :=
  b.num_articles ≤ a.num_articles

instance : DecidableRel tagGe := fun a b => by
  unfold tagGe; infer_instance

instance : IsTotal TagCount tagGe :=
  ⟨fun a b => by unfold tagGe; omega⟩

instance : IsTrans TagCount tagGe :=
  ⟨fun a b c => by unfold tagGe; omega⟩

/-- The ordering `order_by("-num_articles")` of `get_authors`; ties are
resolved by the storage layer, modelled here as stable w.r.t. storage order. -/
def authorGe (a b : AuthorCount) : Prop :=
  b.num_articles ≤ a.num_articles

instance : DecidableRel authorGe := fun a b => by
  unfold authorGe; infer_instance

instance : IsTotal AuthorCount authorGe :=
  ⟨fun a b => by unfold authorGe; omega⟩

instance : IsTrans AuthorCount authorGe :=
  ⟨fun a b c => by unfold authorGe; omega⟩

/-- Embeds `ArticleQuerySet.published`: `self.filter(is_published=True)`. -/
def ArticleQuerySet.published (qs : List Article) : List Article :=
  qs.filter (fun a => a.is_published)

namespace RelatedManager

/-- Embeds `RelatedManager.get_query_set`: builds an `ArticleQuerySet` over the
article table (`select_related("featured_image")` is a prefetch hint with no
effect on which rows are returned). -/
def get_query_set (s : Store) : List Article :=
  s.articles

/-- Embeds `RelatedManager.published`: `self.get_query_set().published()`. -/
def published (s : Store) : List Article :=
  ArticleQuerySet.published (get_query_set s)

/-- Embeds `self.filter(app_config__namespace=namespace)`, the queryset each of
the three helpers starts from. -/
def articlesInNamespace (s : Store) (ns : String) : List Article :=
  s.articles.filter (fun a => a.app_config_namespace == ns)

/-- Embeds `RelatedManager.get_months`: collect the `(year, month)` of every
`publishing_date` of every article in the namespace (no `published()` filter),
count occurrences with `Counter`, keep the distinct pairs
(`dates = set(dates)`), sort them descending
(`sorted(dates, reverse=True)`), and emit one record per pair with the
date rendered with `day=3` and the count of the pair. -/
def get_months (s : Store) (ns : String) : List MonthBucket :=
  let articles := articlesInNamespace s ns
  let dates := articles.map
    (fun a => (a.publishing_date.year, a.publishing_date.month))
  let keys := (dates.dedup).insertionSort monthGe
  keys.map (fun ym =>
    { date := { year := ym.1, month := ym.2, day := 3 },
      num_articles := dates.count ym })

/-- Embeds `RelatedManager.get_authors`:
`Person.objects.filter(article__app_config__namespace=namespace)` joins the
person table against the matching articles, so it keeps exactly the persons
appearing as author of at least one matching article;
`annotate(num_articles=Count("article"))` counts the join rows per person,
and `order_by("-num_articles")` sorts by that count descending. -/
def get_authors (s : Store) (ns : String) : List AuthorCount :=
  let articles := articlesInNamespace s ns
  let matched := s.persons.filter
    (fun p => articles.any (fun a => a.authors.contains p))
  let annotated := matched.map
    (fun p => { person := p,
                num_articles := (articles.flatMap Article.authors).count p })
  annotated.insertionSort authorGe

/-- Embeds `RelatedManager.get_tags`: return `[]` at once when the namespace has no
article; otherwise count the `TaggedItem` rows per tag over the matching
articles (`values("tag").annotate(tag_count=Count("tag"))`), fetch the tags
with `Tag.objects.filter(pk__in=counted_tags.keys())` (storage order), attach
`num_articles`, and stably sort by `num_articles` descending. -/
def get_tags (s : Store) (ns : String) : List TagCount :=
  let articles := articlesInNamespace s ns
  if articles.isEmpty then []
  else
    let taggedItems := articles.flatMap Article.tags
    let tagList := s.tags.filter (fun t => taggedItems.contains t)
    let annotated := tagList.map
      (fun t => { tag := t, num_articles := taggedItems.count t })
    annotated.insertionSort tagGe

/-- The read path of `published` as a state transition: the call computes
its result from the store and performs no write. -/
def published_call (s : Store) : List Article × Store :=
  (published s, s)

/-- The read path of `get_months` as a state transition: the call computes
its result from the store and performs no write. -/
def get_months_call (s : Store) (ns : String) : List MonthBucket × Store :=
  (get_months s ns, s)

/-- The read path of `get_authors` as a state transition. -/
def get_authors_call (s : Store) (ns : String) : List AuthorCount × Store :=
  (get_authors s ns, s)

/-- The read path of `get_tags` as a state transition. -/
def get_tags_call (s : Store) (ns : String) : List TagCount × Store :=
  (get_tags s ns, s)

end RelatedManager

/-- A small concrete store: namespace "blog-a" holds two articles of March
2024 (one unpublished) and one of April 2024, two persons and two tags. -/
def demoStore : Store :=
  { articles := [
      { app_config_namespace := "blog-a", publishing_date := ⟨2024, 3, 14⟩,
        is_published := true, tags := [10], authors := [1] },
      { app_config_namespace := "blog-a", publishing_date := ⟨2024, 3, 7⟩,
        is_published := false, tags := [10, 20], authors := [1] },
      { app_config_namespace := "blog-a", publishing_date := ⟨2024, 4, 21⟩,
        is_published := true, tags := [20], authors := [2] } ],
    persons := [1, 2],
    tags := [10, 20] }

open RelatedManager

/-- Counting one value in the concatenation of the `f`-lists of `l` counts the
elements of `l` whose `f`-list holds the value, provided no single `f`-list
repeats it. -/
theorem count_flatMap_proj (f : Article → List Nat) (t : Nat) :
    ∀ l : List Article, (∀ a ∈ l, (f a).Nodup) →
      (l.flatMap f).count t = (l.filter (fun a => (f a).contains t)).length
  | [], _ => rfl
  | a :: l, h => by
    have ih := count_flatMap_proj f t l (fun b hb => h b (List.mem_cons_of_mem _ hb))
    have ha := h a (List.mem_cons_self _ _)
    by_cases hmem : t ∈ f a
    · have h1 : (f a).count t = 1 := List.count_eq_one_of_mem ha hmem
      simp [List.flatMap_cons, List.count_append, ih, h1, List.filter_cons, hmem,
        Nat.add_comm]
    · have h0 : (f a).count t = 0 := List.count_eq_zero_of_not_mem hmem
      simp [List.flatMap_cons, List.count_append, ih, h0, List.filter_cons, hmem]

/-- C8: `published()` returns exactly the subset of the full article set whose
published flag is true (a sub-sequence of the article table, containing an
article precisely when it is stored and flagged published); being a pure
projection of the store, it has no side effect on it. -/
theorem published_filters_by_flag (s : Store) :
    (RelatedManager.published_call s).2 = s ∧
    (RelatedManager.published s).Sublist s.articles ∧
    ∀ a : Article, a ∈ RelatedManager.published s ↔
      a ∈ s.articles ∧ a.is_published = true := by
  refine ⟨rfl, List.filter_sublist _, ?_⟩
  intro a
  simp [RelatedManager.published, ArticleQuerySet.published, RelatedManager.get_query_set,
    List.mem_filter]

/-- C9: each of the three query helpers leaves the store untouched, so calling
any of them twice with no intervening write yields identical results. -/
theorem queries_read_only_idempotent (s : Store) (ns : String) :
    (get_months_call s ns).2 = s ∧ (get_authors_call s ns).2 = s ∧
    (get_tags_call s ns).2 = s ∧
    (get_months_call (get_months_call s ns).2 ns).1 = (get_months_call s ns).1 ∧
    (get_authors_call (get_authors_call s ns).2 ns).1 = (get_authors_call s ns).1 ∧
    (get_tags_call (get_tags_call s ns).2 ns).1 = (get_tags_call s ns).1 :=
  ⟨rfl, rfl, rfl, rfl, rfl, rfl⟩

/-- C5: on a namespace with zero articles `get_tags` returns the empty
sequence at once, whatever the tag table holds — the short-circuit happens
before the tag and tagged-item tables are consulted. -/
theorem get_tags_empty_namespace_shortcircuit (s : Store) (ns : String)
    (h : articlesInNamespace s ns = []) :
    ∀ tagTable : List Nat, get_tags { s with tags := tagTable } ns = [] := by
  intro tagTable
  have h2 : articlesInNamespace { s with tags := tagTable } ns = [] := h
  simp [RelatedManager.get_tags, h2]

/-- Witness for C5 at a concrete store and namespace. -/
theorem get_tags_empty_namespace_shortcircuit_witness :
    articlesInNamespace demoStore "blog-b" = [] ∧
    ∀ tagTable : List Nat, get_tags { demoStore with tags := tagTable } "blog-b" = [] :=
  ⟨by decide, get_tags_empty_namespace_shortcircuit demoStore "blog-b" (by decide)⟩

/-- C6: a namespace matching no article makes all three helpers return an
empty sequence rather than raise an error. -/
theorem unknown_namespace_returns_empty (s : Store) (ns : String)
    (h : ∀ a ∈ s.articles, a.app_config_namespace ≠ ns) :
    get_months s ns = [] ∧ get_authors s ns = [] ∧ get_tags s ns = [] := by
  have hfil : articlesInNamespace s ns = [] := by
    simp only [RelatedManager.articlesInNamespace]
    rw [List.filter_eq_nil_iff]
    intro a ha
    simpa using h a ha
  refine ⟨?_, ?_, ?_⟩
  · simp [RelatedManager.get_months, hfil]
  · simp [RelatedManager.get_authors, hfil]
  · simp [RelatedManager.get_tags, hfil]

/-- Witness for C6 at a concrete store and namespace. -/
theorem unknown_namespace_returns_empty_witness :
    (∀ a ∈ demoStore.articles, a.app_config_namespace ≠ "blog-b") ∧
    get_months demoStore "blog-b" = [] ∧ get_authors demoStore "blog-b" = [] ∧
    get_tags demoStore "blog-b" = [] :=
  ⟨by decide, unknown_namespace_returns_empty demoStore "blog-b" (by decide)⟩

/-- C10: every bucket of `get_months` counts at least one article: a
`(year, month)` pair is emitted only when observed among the publishing
dates, so no zero-count month appears. -/
theorem get_months_counts_positive (s : Store) (ns : String) :
    ∀ b ∈ get_months s ns, 1 ≤ b.num_articles := by
  intro b hb
  simp only [RelatedManager.get_months, List.mem_map] at hb
  obtain ⟨ym, hym, rfl⟩ := hb
  have h1 : ym ∈ ((articlesInNamespace s ns).map
      (fun a => (a.publishing_date.year, a.publishing_date.month))).dedup :=
    (List.perm_insertionSort monthGe _).mem_iff.mp hym
  have h2 := List.mem_dedup.mp h1
  simpa using List.count_pos_iff.mpr h2

/-- Counting one `(year, month)` pair among the projected publishing dates
counts the articles published in that month. -/
theorem count_map_pair (ym : Nat × Nat) :
    ∀ l : List Article,
      (l.map (fun a => (a.publishing_date.year, a.publishing_date.month))).count ym
        = (l.filter (fun a => a.publishing_date.year == ym.1
            && a.publishing_date.month == ym.2)).length
  | [] => rfl
  | a :: l => by
    have ih := count_map_pair ym l
    by_cases h : a.publishing_date.year = ym.1 ∧ a.publishing_date.month = ym.2
    · obtain ⟨h1, h2⟩ := h
      simp [List.count_cons, List.filter_cons, ih, h1, h2, Prod.ext_iff]
    · rw [Decidable.not_and_iff_or_not] at h
      rcases h with h | h <;>
        simp [List.count_cons, List.filter_cons, ih, h, Prod.ext_iff]

/-- C7: every record of `get_months` carries a date whose day is fixed to 3
and whose year and month are the pair of the bucket, counted over articles of
the namespace published in that very month. -/
theorem get_months_day_three (s : Store) (ns : String) :
    ∀ b ∈ get_months s ns,
      b.date.day = 3 ∧
      b.num_articles = ((articlesInNamespace s ns).filter
        (fun a => a.publishing_date.year == b.date.year
          && a.publishing_date.month == b.date.month)).length := by
  intro b hb
  simp only [RelatedManager.get_months, List.mem_map] at hb
  obtain ⟨ym, hym, rfl⟩ := hb
  exact ⟨rfl, count_map_pair ym (articlesInNamespace s ns)⟩

/-- Witness for C7 at a concrete store, namespace and bucket. -/
theorem get_months_day_three_witness :
    MonthBucket.mk ⟨2024, 3, 3⟩ 2 ∈ get_months demoStore "blog-a" ∧
    ((MonthBucket.mk ⟨2024, 3, 3⟩ 2).date.day = 3 ∧
      (MonthBucket.mk ⟨2024, 3, 3⟩ 2).num_articles
        = ((articlesInNamespace demoStore "blog-a").filter
            (fun a => a.publishing_date.year == 2024
              && a.publishing_date.month == 3)).length) :=
  ⟨by decide, get_months_day_three demoStore "blog-a" _ (by decide)⟩

/-- Occurrence counts do not depend on which lawful boolean-equality
instance performs the comparisons. -/
theorem count_beq_irrel {α : Type} [DecidableEq α] [inst : BEq α] [LawfulBEq α]
    (a : α) (l : List α) :
    @List.count α inst a l = @List.count α instBEqOfDecidableEq a l := by
  induction l with
  | nil => rfl
  | cons b l ih =>
    rw [@List.count_cons α inst, @List.count_cons α instBEqOfDecidableEq, ih]
    by_cases h : b = a
    · simp [h]
    · simp [h]

/-- C1: `get_months` starts from the plain namespace filter and never applies
`published()`, so its counts sum to the total number of articles stored in
the namespace, published or not. -/
theorem get_months_total_count (s : Store) (ns : String) :
    ((get_months s ns).map MonthBucket.num_articles).sum
      = (s.articles.filter (fun a => a.app_config_namespace == ns)).length := by
  simp only [RelatedManager.get_months, List.map_map, Function.comp_def]
  rw [List.Perm.sum_eq (((List.perm_insertionSort monthGe _)).map _)]
  simp only [count_beq_irrel]
  have := List.sum_map_count_dedup_eq_length
    ((articlesInNamespace s ns).map
      (fun a => (a.publishing_date.year, a.publishing_date.month)))
  simpa [Function.comp, RelatedManager.articlesInNamespace] using this

/-- The distinct `(year, month)` keys, once sorted with `monthGe`, are in
strictly descending lexicographic order. -/
theorem sorted_keys_strict_desc (l : List (Nat × Nat)) :
    (l.dedup.insertionSort monthGe).Pairwise
      (fun a b => b.1 < a.1 ∨ (b.1 = a.1 ∧ b.2 < a.2)) := by
  have hsort : (l.dedup.insertionSort monthGe).Pairwise monthGe :=
    List.sorted_insertionSort monthGe _
  have hnodup : (l.dedup.insertionSort monthGe).Pairwise (· ≠ ·) :=
    (List.perm_insertionSort monthGe _).nodup_iff.mpr (List.nodup_dedup _)
  refine (hsort.and hnodup).imp ?_
  rintro a b ⟨hge, hne⟩
  rw [Ne, Prod.ext_iff] at hne
  unfold monthGe at hge
  omega

/-- C2: the buckets of `get_months` have pairwise distinct `(year, month)`
keys and come sorted in strictly descending lexicographic order. -/
theorem get_months_sorted_distinct (s : Store) (ns : String) :
    ((get_months s ns).Pairwise (fun b1 b2 =>
      (b1.date.year, b1.date.month) ≠ (b2.date.year, b2.date.month))) ∧
    ((get_months s ns).Pairwise (fun b1 b2 =>
      b2.date.year < b1.date.year ∨
        (b2.date.year = b1.date.year ∧ b2.date.month < b1.date.month))) := by
  constructor
  · simp only [RelatedManager.get_months, List.pairwise_map]
    refine (sorted_keys_strict_desc _).imp ?_
    intro a b h
    simp only [Ne, Prod.ext_iff]
    omega
  · simp only [RelatedManager.get_months, List.pairwise_map]
    exact (sorted_keys_strict_desc _).imp (fun h => h)

/-- Unfolding of `get_tags` on a namespace holding at least one article. -/
theorem get_tags_eq (s : Store) (ns : String)
    (h : articlesInNamespace s ns ≠ []) :
    get_tags s ns =
      ((s.tags.filter (fun t =>
          ((articlesInNamespace s ns).flatMap Article.tags).contains t)).map
        (fun t => TagCount.mk t
          (((articlesInNamespace s ns).flatMap Article.tags).count t))).insertionSort
        tagGe := by
  have h2 : ¬((articlesInNamespace s ns).isEmpty = true) := by
    simpa [List.isEmpty_iff] using h
  simp only [RelatedManager.get_tags, if_neg h2]

/-- Unfolding of `get_authors`. -/
theorem get_authors_eq (s : Store) (ns : String) :
    get_authors s ns =
      ((s.persons.filter (fun p => (articlesInNamespace s ns).any
          (fun a => a.authors.contains p))).map
        (fun p => AuthorCount.mk p
          (((articlesInNamespace s ns).flatMap Article.authors).count p))).insertionSort
        authorGe := rfl

/-- Inserting an entry whose count is not `n` leaves the sub-sequence of
count-`n` entries unchanged. -/
theorem filter_orderedInsert_ne (n : Nat) (x : TagCount) (hx : x.num_articles ≠ n) :
    ∀ l : List TagCount,
      (l.orderedInsert tagGe x).filter (fun tc => tc.num_articles == n)
        = l.filter (fun tc => tc.num_articles == n)
  | [] => by simp [hx]
  | y :: l => by
    simp only [List.orderedInsert]
    by_cases hr : tagGe x y
    · rw [if_pos hr, List.filter_cons]
      simp [hx]
    · rw [if_neg hr, List.filter_cons, filter_orderedInsert_ne n x hx l,
        List.filter_cons]

/-- An entry of count `n` is ordered-inserted in front of every count-`n`
entry already present (the entries of larger count all come first). -/
theorem filter_orderedInsert_eq (n : Nat) (x : TagCount) (hx : x.num_articles = n) :
    ∀ l : List TagCount,
      (l.orderedInsert tagGe x).filter (fun tc => tc.num_articles == n)
        = x :: l.filter (fun tc => tc.num_articles == n)
  | [] => by simp [hx]
  | y :: l => by
    simp only [List.orderedInsert]
    by_cases hr : tagGe x y
    · rw [if_pos hr, List.filter_cons]
      simp [hx]
    · have hy : y.num_articles ≠ n := by
        unfold tagGe at hr
        omega
      rw [if_neg hr, List.filter_cons, if_neg (by simpa using hy),
        filter_orderedInsert_eq n x hx l, List.filter_cons,
        if_neg (by simpa using hy)]

/-- Insertion sort by descending count is stable: it permutes entries without
reordering those sharing one count. -/
theorem filter_insertionSort (n : Nat) :
    ∀ l : List TagCount,
      (l.insertionSort tagGe).filter (fun tc => tc.num_articles == n)
        = l.filter (fun tc => tc.num_articles == n)
  | [] => rfl
  | x :: l => by
    simp only [List.insertionSort]
    by_cases hx : x.num_articles = n
    · rw [filter_orderedInsert_eq n x hx _, filter_insertionSort n l,
        List.filter_cons, if_pos (by simpa using hx)]
    · rw [filter_orderedInsert_ne n x hx _, filter_insertionSort n l,
        List.filter_cons, if_neg (by simpa using hx)]

/-- C3: on a namespace with at least one article, `get_tags` yields one entry
per tag attached to at least one article of the namespace, counts per tag
exactly the articles carrying it, sorts by count descending, and breaks count
ties stably by the storage order of the tag table. The hypotheses record the
database invariants: tag primary keys are unique, one tagged-item row exists
per article and tag, and tag references are valid foreign keys. -/
theorem get_tags_spec (s : Store) (ns : String)
    (hne : articlesInNamespace s ns ≠ [])
    (htags : s.tags.Nodup)
    (hanodup : ∀ a ∈ s.articles, a.tags.Nodup)
    (hfk : ∀ a ∈ s.articles, ∀ t ∈ a.tags, t ∈ s.tags) :
    ((get_tags s ns).map TagCount.tag).Nodup ∧
    (∀ t : Nat, (∃ tc ∈ get_tags s ns, tc.tag = t) ↔
      ∃ a ∈ articlesInNamespace s ns, t ∈ a.tags) ∧
    (∀ tc ∈ get_tags s ns,
      tc.num_articles = ((articlesInNamespace s ns).filter
        (fun a => a.tags.contains tc.tag)).length) ∧
    ((get_tags s ns).Pairwise (fun x y => y.num_articles ≤ x.num_articles)) ∧
    (∀ n : Nat, (((get_tags s ns).filter
        (fun tc => tc.num_articles == n)).map TagCount.tag).Sublist s.tags) := by
  have heq := get_tags_eq s ns hne
  have hsub : ∀ a ∈ articlesInNamespace s ns, a ∈ s.articles := by
    intro a ha
    simp only [RelatedManager.articlesInNamespace, List.mem_filter] at ha
    exact ha.1
  refine ⟨?_, ?_, ?_, ?_, ?_⟩
  · rw [heq]
    refine ((List.perm_insertionSort tagGe _).map TagCount.tag).nodup_iff.mpr ?_
    rw [List.map_map]
    have hid : (TagCount.tag ∘ fun t => TagCount.mk t
        (((articlesInNamespace s ns).flatMap Article.tags).count t)) = id := rfl
    rw [hid, List.map_id]
    exact htags.filter _
  · intro t
    rw [heq]
    constructor
    · rintro ⟨tc, htc, rfl⟩
      have h1 := (List.perm_insertionSort tagGe _).mem_iff.mp htc
      obtain ⟨u, hu, rfl⟩ := List.mem_map.mp h1
      have hu2 := (List.mem_filter.mp hu).2
      have hmemT : u ∈ (articlesInNamespace s ns).flatMap Article.tags := by
        simpa [List.elem_iff] using hu2
      obtain ⟨a, ha, hta⟩ := List.mem_flatMap.mp hmemT
      exact ⟨a, ha, hta⟩
    · rintro ⟨a, ha, hta⟩
      refine ⟨TagCount.mk t
        (((articlesInNamespace s ns).flatMap Article.tags).count t), ?_, rfl⟩
      refine (List.perm_insertionSort tagGe _).mem_iff.mpr ?_
      refine List.mem_map.mpr ⟨t, ?_, rfl⟩
      refine List.mem_filter.mpr ⟨hfk a (hsub a ha) t hta, ?_⟩
      simpa [List.elem_iff] using List.mem_flatMap.mpr ⟨a, ha, hta⟩
  · intro tc htc
    rw [heq] at htc
    have h1 := (List.perm_insertionSort tagGe _).mem_iff.mp htc
    obtain ⟨u, hu, rfl⟩ := List.mem_map.mp h1
    show ((articlesInNamespace s ns).flatMap Article.tags).count u = _
    rw [count_flatMap_proj Article.tags u _ (fun a ha => hanodup a (hsub a ha))]
  · rw [heq]
    exact List.sorted_insertionSort tagGe _
  · intro n
    rw [heq, filter_insertionSort n, List.filter_map, List.map_map]
    have hid : (TagCount.tag ∘ fun t => TagCount.mk t
        (((articlesInNamespace s ns).flatMap Article.tags).count t)) = id := rfl
    rw [hid, List.map_id]
    exact (List.filter_sublist _).trans (List.filter_sublist _)

/-- Witness for C3 at a concrete store and namespace. -/
theorem get_tags_spec_witness :
    (articlesInNamespace demoStore "blog-a" ≠ [] ∧ demoStore.tags.Nodup ∧
      (∀ a ∈ demoStore.articles, a.tags.Nodup) ∧
      (∀ a ∈ demoStore.articles, ∀ t ∈ a.tags, t ∈ demoStore.tags)) ∧
    (((get_tags demoStore "blog-a").map TagCount.tag).Nodup ∧
    (∀ t : Nat, (∃ tc ∈ get_tags demoStore "blog-a", tc.tag = t) ↔
      ∃ a ∈ articlesInNamespace demoStore "blog-a", t ∈ a.tags) ∧
    (∀ tc ∈ get_tags demoStore "blog-a",
      tc.num_articles = ((articlesInNamespace demoStore "blog-a").filter
        (fun a => a.tags.contains tc.tag)).length) ∧
    ((get_tags demoStore "blog-a").Pairwise
      (fun x y => y.num_articles ≤ x.num_articles)) ∧
    (∀ n : Nat, (((get_tags demoStore "blog-a").filter
        (fun tc => tc.num_articles == n)).map TagCount.tag).Sublist
          demoStore.tags)) :=
  ⟨⟨by decide, by decide, by decide, by decide⟩,
    get_tags_spec demoStore "blog-a" (by decide) (by decide) (by decide) (by decide)⟩

/-- C4: `get_authors` returns exactly the persons authoring at least one
article of the namespace — never one with zero matching articles — each
annotated with the count of their distinct authored articles in it, ordered
by that count descending. The hypotheses record the database invariants:
person primary keys are unique, one authorship row exists per article and
person, and author references are valid foreign keys. -/
theorem get_authors_spec (s : Store) (ns : String)
    (hpers : s.persons.Nodup)
    (hanodup : ∀ a ∈ s.articles, a.authors.Nodup)
    (hfk : ∀ a ∈ s.articles, ∀ p ∈ a.authors, p ∈ s.persons) :
    ((get_authors s ns).map AuthorCount.person).Nodup ∧
    (∀ p : Nat, (∃ ac ∈ get_authors s ns, ac.person = p) ↔
      ∃ a ∈ articlesInNamespace s ns, p ∈ a.authors) ∧
    (∀ ac ∈ get_authors s ns,
      ac.num_articles = ((articlesInNamespace s ns).filter
        (fun a => a.authors.contains ac.person)).length) ∧
    ((get_authors s ns).Pairwise (fun x y => y.num_articles ≤ x.num_articles)) := by
  have heq := get_authors_eq s ns
  have hsub : ∀ a ∈ articlesInNamespace s ns, a ∈ s.articles := by
    intro a ha
    simp only [RelatedManager.articlesInNamespace, List.mem_filter] at ha
    exact ha.1
  refine ⟨?_, ?_, ?_, ?_⟩
  · rw [heq]
    refine ((List.perm_insertionSort authorGe _).map AuthorCount.person).nodup_iff.mpr ?_
    rw [List.map_map]
    have hid : (AuthorCount.person ∘ fun p => AuthorCount.mk p
        (((articlesInNamespace s ns).flatMap Article.authors).count p)) = id := rfl
    rw [hid, List.map_id]
    exact hpers.filter _
  · intro p
    rw [heq]
    constructor
    · rintro ⟨ac, hac, rfl⟩
      have h1 := (List.perm_insertionSort authorGe _).mem_iff.mp hac
      obtain ⟨u, hu, rfl⟩ := List.mem_map.mp h1
      have hu2 := (List.mem_filter.mp hu).2
      obtain ⟨a, ha, hpa⟩ := List.any_eq_true.mp hu2
      exact ⟨a, ha, by simpa [List.elem_iff] using hpa⟩
    · rintro ⟨a, ha, hpa⟩
      refine ⟨AuthorCount.mk p
        (((articlesInNamespace s ns).flatMap Article.authors).count p), ?_, rfl⟩
      refine (List.perm_insertionSort authorGe _).mem_iff.mpr ?_
      refine List.mem_map.mpr ⟨p, ?_, rfl⟩
      refine List.mem_filter.mpr ⟨hfk a (hsub a ha) p hpa, ?_⟩
      exact List.any_eq_true.mpr ⟨a, ha, by simpa [List.elem_iff] using hpa⟩
  · intro ac hac
    rw [heq] at hac
    have h1 := (List.perm_insertionSort authorGe _).mem_iff.mp hac
    obtain ⟨u, hu, rfl⟩ := List.mem_map.mp h1
    show ((articlesInNamespace s ns).flatMap Article.authors).count u = _
    rw [count_flatMap_proj Article.authors u _ (fun a ha => hanodup a (hsub a ha))]
  · rw [heq]
    exact List.sorted_insertionSort authorGe _

/-- Witness for C4 at a concrete store and namespace. -/
theorem get_authors_spec_witness :
    (demoStore.persons.Nodup ∧
      (∀ a ∈ demoStore.articles, a.authors.Nodup) ∧
      (∀ a ∈ demoStore.articles, ∀ p ∈ a.authors, p ∈ demoStore.persons)) ∧
    (((get_authors demoStore "blog-a").map AuthorCount.person).Nodup ∧
    (∀ p : Nat, (∃ ac ∈ get_authors demoStore "blog-a", ac.person = p) ↔
      ∃ a ∈ articlesInNamespace demoStore "blog-a", p ∈ a.authors) ∧
    (∀ ac ∈ get_authors demoStore "blog-a",
      ac.num_articles = ((articlesInNamespace demoStore "blog-a").filter
        (fun a => a.authors.contains ac.person)).length) ∧
    ((get_authors demoStore "blog-a").Pairwise
      (fun x y => y.num_articles ≤ x.num_articles))) :=
  ⟨⟨by decide, by decide, by decide⟩,
    get_authors_spec demoStore "blog-a" (by decide) (by decide) (by decide)⟩

/-- Witness for C10 at a concrete store, namespace and bucket. -/
theorem get_months_counts_positive_witness :
    MonthBucket.mk ⟨2024, 4, 3⟩ 1 ∈ get_months demoStore "blog-a" ∧
    1 ≤ (MonthBucket.mk ⟨2024, 4, 3⟩ 1).num_articles :=
  ⟨by decide, get_months_counts_positive demoStore "blog-a" _ (by decide)⟩

end AldrynNewsblog
